import Mathlib

/-!
Verification of the `pui` process-unique-identifier library.

The development shallowly embeds the runtime-checkable part of the crate:

* the `Scalar` counter machinery of `src/macros.rs` (the `num!` macro body
  for `inc_local` / `inc_atomic`, and the dedicated `()` instance);
* the `IdAlloc` implementations produced by `make_global_id_alloc`
  (`src/runtime/macros.rs`);
* the `PoolMut` implementations for `()`, `Vec` and `VecDeque`
  (`src/runtime/pool.rs`) and the pools of `make_global_pool`;
* `Runtime` creation, equality, ownership and drop (`src/runtime.rs`);
* the `ResettableOnceFlag` of `src/macros.rs` (both the `std` and the
  pure-atomic variant, given single-threaded interleaving semantics).

Machine integers are modelled as `Int` with explicit bounds; `checked_add`
is the partial successor; atomics are modelled by explicit state passing
(the sequential semantics in which a `compare_exchange` succeeds, there
being no interfering thread).
-/

namespace Pui

/-- Model of one instantiation of the `num!` macro of `src/macros.rs`:
`hi` is the largest value of the backing `Local` integer type (so
`checked_add(1)` fails exactly above it), `init` is `INIT_LOCAL` (the `$min`
parameter), `maxBound` is the optional `$max` parameter, and `conv` is the
`$convert` expression applied to the pre-increment counter value. -/
structure NumScalar (Id : Type) where
  hi : Int
  init : Int
  maxBound : Option Int
  conv : Int → Id

/-- Source: `value.checked_add(1)` on the backing `Local` integer type. -/
def NumScalar.checkedAddOne {Id : Type} (S : NumScalar Id) (value : Int) : Option Int :=
  if value + 1 ≤ S.hi then some (value + 1) else none

/-- Source: `Scalar::inc_local` from the `num!` macro body (`src/macros.rs:283-301`):
checked increment, the out-of-bounds test against the optional `$max`, and
conversion of the old value into an id. -/
def NumScalar.incLocal {Id : Type} (S : NumScalar Id) (value : Int) : Option (Int × Id) :=
  let next := S.checkedAddOne value
  let is_out_of_bounds : Bool :=
    match next, S.maxBound with
    | none, _ => true
    | _, none => false
    | some n, some m => decide (m ≤ n)
  if is_out_of_bounds then
    none
  else
    match next with
    | some n => some (n, S.conv value)
    | none => none

/-- Source: `Scalar::inc_atomic` from the `num!` macro body (`src/macros.rs:303-330`),
under sequential (interference-free) semantics: the load observes `cell`, the
bound check is as in `inc_local`, and the `compare_exchange_weak` succeeds,
storing the successor and returning the converted old value. -/
def NumScalar.incAtomicSeq {Id : Type} (S : NumScalar Id) (cell : Int) : Option (Int × Id) :=
  let next := S.checkedAddOne cell
  let is_out_of_bounds : Bool :=
    match next, S.maxBound with
    | none, _ => true
    | _, none => false
    | some n, some m => decide (m ≤ n)
  if is_out_of_bounds then
    none
  else
    match next with
    | some n => some (n, S.conv cell)
    | none => none

/-- The exhaustion condition, as a boolean: the checked add fails, or the
successor reaches the declared max. -/
def NumScalar.exhaustedAt {Id : Type} (S : NumScalar Id) (value : Int) : Bool :=
  decide (S.hi < value + 1) ||
    (match S.maxBound with
     | none => false
     | some m => decide (m ≤ value + 1))

/-- Complete characterisation of `inc_local`: it fails exactly at exhaustion,
and otherwise returns the incremented state together with the encoding of the
old value. -/
theorem NumScalar.incLocal_char {Id : Type} (S : NumScalar Id) (value : Int) :
    S.incLocal value =
      if S.exhaustedAt value then none else some (value + 1, S.conv value) := by
  unfold NumScalar.incLocal NumScalar.exhaustedAt NumScalar.checkedAddOne
  by_cases h : value + 1 ≤ S.hi
  · cases hm : S.maxBound with
    | none => simp [h, not_lt.mpr h]
    | some m =>
      by_cases hmb : m ≤ value + 1
      · simp [h, hm, hmb, not_lt.mpr h]
      · simp [h, hm, hmb, not_lt.mpr h]
  · cases hm : S.maxBound with
    | none => simp [h, lt_of_not_le h]
    | some m => simp [h, hm, lt_of_not_le h]

/-- Source: `inc_atomic` (sequential semantics) computes the same partial function as
`inc_local`. -/
theorem NumScalar.incAtomicSeq_eq_incLocal {Id : Type} (S : NumScalar Id) (cell : Int) :
    S.incAtomicSeq cell = S.incLocal cell := rfl

/-- The `u8` instance of the `num!` macro: `Local = u8`, `INIT_LOCAL = u8::MIN`,
no declared max, identity conversion. -/
def u8Scalar : NumScalar Int :=
  { hi := 255, init := 0, maxBound := none, conv := fun v => v }

/-- The `NonZeroU64` instance of the `num!` macro (`src/macros.rs:355`): the
`Local` type is `u64`, `INIT_LOCAL = 1`, no declared max, and the conversion
is `NonZeroU64::new_unchecked` (numerically the identity). This is the scalar
backing the `Global` id allocator of `src/runtime.rs`. -/
def nonZeroU64Scalar : NumScalar Int :=
  { hi := 18446744073709551615, init := 1, maxBound := none, conv := fun v => v }

/-- The `$convert` expression of the `[u8; 3]` instance (`src/macros.rs:380`):
the first three little-endian bytes of the `u32` counter value. -/
def u8x3conv (v : Int) : List Nat :=
  [v.toNat % 256, v.toNat / 256 % 256, v.toNat / 65536 % 256]

/-- The `[u8; 3]` instance of the `num!` macro (`src/macros.rs:380-383`):
`Local = u32`, `INIT_LOCAL = 0`, declared max `1 << (3 * 8) = 2^24`. -/
def u8x3Scalar : NumScalar (List Nat) :=
  { hi := 4294967295, init := 0, maxBound := some 16777216, conv := u8x3conv }

/-- Source: `INIT_LOCAL` of the `()` instance of `Scalar` (`src/macros.rs:233`). -/
def unitInitLocal : Bool := true

/-- Source: `<() as Scalar>::inc_local` (`src/macros.rs:239-245`): the `bool` state
flips from `true` to `false` on the single successful call. -/
def unitIncLocal (this : Bool) : Option (Bool × Unit) :=
  if this then some (false, ()) else none

/-- Source: `<() as Scalar>::inc_atomic` (`src/macros.rs:249-255`), sequential
semantics of `compare_and_swap(true, false)`. -/
def unitIncAtomicSeq (cell : Bool) : Option (Bool × Unit) :=
  if cell then some (false, ()) else none

/-- The strict order on `bool` derived by Rust (`false < true`). -/
def boolLt (a b : Bool) : Bool := !a && b

/-- Source: `IdAlloc::try_alloc` as generated by `make_global_id_alloc`
(`src/runtime/macros.rs:80-88`): `inc_atomic` on the global counter cell. -/
def tryAllocG {Id : Type} (S : NumScalar Id) (cell : Int) : Option (Int × Id) :=
  S.incAtomicSeq cell

/-- The panicking `IdAlloc::alloc` as generated by `make_global_id_alloc`
(`src/runtime/macros.rs:72-78`): `try_alloc(..).expect(..)`, with the panic
modelled as `Except.error`. -/
def allocG {Id : Type} (S : NumScalar Id) (cell : Int) : Except String (Int × Id) :=
  match tryAllocG S cell with
  | some r => Except.ok r
  | none => Except.error "Cannot overflow IdAlloc"

/-- The exhaustion condition holds exactly when the successor overflows the
backing integer or reaches the declared max. -/
theorem NumScalar.exhaustedAt_iff {Id : Type} (S : NumScalar Id) (value : Int) :
    S.exhaustedAt value = true ↔
      S.hi < value + 1 ∨ ∃ m, S.maxBound = some m ∧ m ≤ value + 1 := by
  unfold NumScalar.exhaustedAt
  cases hm : S.maxBound with
  | none => simp
  | some m => simp [hm]

/-- C3: id allocation detects overflow instead of wrapping. `inc_local` and
`inc_atomic` return `None` exactly when the incremented counter would exceed
the representable bound (the checked add fails, or the successor reaches the
declared max); otherwise they return the unwrapped successor `value + 1`
(never a wrapped value) together with the id. At the allocator level,
`try_alloc` is `inc_atomic` on the counter cell, and the panicking `alloc`
panics exactly when `try_alloc` returns `None`. -/
theorem inc_overflow_detected {Id : Type} (S : NumScalar Id) (value cell : Int) :
    (S.incLocal value =
      if S.exhaustedAt value then none else some (value + 1, S.conv value)) ∧
    (S.incAtomicSeq value =
      if S.exhaustedAt value then none else some (value + 1, S.conv value)) ∧
    (S.exhaustedAt value = true ↔
      S.hi < value + 1 ∨ ∃ m, S.maxBound = some m ∧ m ≤ value + 1) ∧
    tryAllocG S cell = S.incAtomicSeq cell ∧
    ((allocG S cell).isOk = (tryAllocG S cell).isSome) := by
  refine ⟨S.incLocal_char value, ?_, S.exhaustedAt_iff value, rfl, ?_⟩
  · rw [S.incAtomicSeq_eq_incLocal]; exact S.incLocal_char value
  · unfold allocG
    cases tryAllocG S cell <;> simp [Except.isOk, Except.toBool]

/-- Witness for C3 at the `u8` scalar: at the top of the `u8` range the
allocator is exhausted, and at `3` it produces `4` with id `3`. -/
theorem inc_overflow_detected_witness :
    (Pui.u8Scalar.incLocal 255 =
      if Pui.u8Scalar.exhaustedAt 255 then none
      else some (255 + 1, Pui.u8Scalar.conv 255)) ∧
    (Pui.u8Scalar.incAtomicSeq 255 =
      if Pui.u8Scalar.exhaustedAt 255 then none
      else some (255 + 1, Pui.u8Scalar.conv 255)) ∧
    (Pui.u8Scalar.exhaustedAt 255 = true ↔
      Pui.u8Scalar.hi < 255 + 1 ∨
        ∃ m, Pui.u8Scalar.maxBound = some m ∧ m ≤ 255 + 1) ∧
    Pui.tryAllocG Pui.u8Scalar 3 = Pui.u8Scalar.incAtomicSeq 3 ∧
    ((Pui.allocG Pui.u8Scalar 3).isOk = (Pui.tryAllocG Pui.u8Scalar 3).isSome) :=
  inc_overflow_detected u8Scalar 255 3

/-- Run `n` consecutive `inc_local` calls starting from state `v`, collecting
the issued ids; fails if any call fails. -/
def NumScalar.runN {Id : Type} (S : NumScalar Id) : Nat → Int → Option (Int × List Id)
  | 0, v => some (v, [])
  | n + 1, v =>
    match S.incLocal v with
    | none => none
    | some (v', id) =>
      match S.runN n v' with
      | none => none
      | some (vf, ids) => some (vf, id :: ids)

/-- Run `n` consecutive `inc_atomic` calls on one cell (sequential
semantics), collecting the issued ids. -/
def NumScalar.runNAtomic {Id : Type} (S : NumScalar Id) : Nat → Int → Option (Int × List Id)
  | 0, v => some (v, [])
  | n + 1, v =>
    match S.incAtomicSeq v with
    | none => none
    | some (v', id) =>
      match S.runNAtomic n v' with
      | none => none
      | some (vf, ids) => some (vf, id :: ids)

theorem NumScalar.runNAtomic_eq_runN {Id : Type} (S : NumScalar Id) (n : Nat) (v : Int) :
    S.runNAtomic n v = S.runN n v := by
  induction n generalizing v with
  | zero => rfl
  | succ n ih =>
    unfold NumScalar.runNAtomic NumScalar.runN
    rw [S.incAtomicSeq_eq_incLocal]
    cases S.incLocal v with
    | none => rfl
    | some r =>
      obtain ⟨v', id⟩ := r
      dsimp only
      rw [ih]

/-- A successful run of `n` steps from `v` advances the state to `v + n`,
issues exactly the encodings of `v, v + 1, …, v + n - 1`, and every
intermediate call succeeded. -/
theorem NumScalar.runN_eq {Id : Type} (S : NumScalar Id) (n : Nat) (v vf : Int)
    (ids : List Id) (h : S.runN n v = some (vf, ids)) :
    vf = v + n ∧ ids = (List.range n).map (fun k : Nat => S.conv (v + (k : Int))) ∧
      ∀ k : Nat, k < n → S.incLocal (v + (k : Int)) ≠ none := by
  induction n generalizing v vf ids with
  | zero =>
    unfold NumScalar.runN at h
    simp only [Option.some.injEq, Prod.mk.injEq] at h
    refine ⟨by omega, by simp [h.2.symm], by omega⟩
  | succ n ih =>
    unfold NumScalar.runN at h
    rcases h1 : S.incLocal v with _ | ⟨v', id⟩
    · rw [h1] at h; exact absurd h (by simp)
    · rw [h1] at h
      dsimp only at h
      rcases h2 : S.runN n v' with _ | ⟨vf', ids'⟩
      · rw [h2] at h; exact absurd h (by simp)
      · rw [h2] at h
        dsimp only at h
        simp only [Option.some.injEq, Prod.mk.injEq] at h
        have hchar := S.incLocal_char v
        rw [h1] at hchar
        by_cases hex : S.exhaustedAt v
        · rw [if_pos hex] at hchar; exact absurd hchar (by simp)
        · rw [if_neg hex] at hchar
          have hv' : v' = v + 1 := by
            have hc := hchar.symm
            simp only [Option.some.injEq, Prod.mk.injEq] at hc
            exact hc.1.symm
          have hid : id = S.conv v := by
            have hc := hchar.symm
            simp only [Option.some.injEq, Prod.mk.injEq] at hc
            exact hc.2.symm
          obtain ⟨hvf, hids, hsteps⟩ := ih v' vf' ids' h2
          subst hv'
          refine ⟨by rw [← h.1, hvf]; push_cast; ring, ?_, ?_⟩
          · rw [← h.2, hids, hid, List.range_succ_eq_map, List.map_cons, List.map_map]
            simp only [Nat.cast_zero, add_zero]
            congr 1
            apply List.map_congr_left
            intro a _
            simp only [Function.comp_apply]
            congr 1
            push_cast
            ring
          · intro k hk
            cases k with
            | zero =>
              intro hcon
              rw [Nat.cast_zero, add_zero, h1] at hcon
              exact absurd hcon (by simp)
            | succ k =>
              have hstep := hsteps k (by omega)
              have harg : v + 1 + (k : Int) = v + ((k + 1 : Nat) : Int) := by
                push_cast; ring
              rw [← harg]
              exact hstep

/-- C2 counterexample: the claim quantifies over every `Scalar` instance, but
the `()` instance of `Scalar` (`src/macros.rs:225-256`) has `Local = bool`
with `INIT_LOCAL = true`, and its single successful `inc_local` call returns
the successor state `false`, which is strictly smaller (not greater) than the
input `true` in the derived order on `bool`. -/
theorem counter_monotonic_counterexample :
    Pui.unitInitLocal = true ∧
    Pui.unitIncLocal Pui.unitInitLocal = some (false, ()) ∧
    Pui.boolLt Pui.unitInitLocal false = false := by
  refine ⟨rfl, rfl, rfl⟩

/-- C2 (amended): for every `Scalar` instance generated by the numeric macro
(whose ids encode the counter injectively), runs from `INIT_LOCAL` issue
pairwise distinct ids, every successful `inc_local` call returns a state
strictly greater than its input, and `inc_atomic` sequences coincide with
`inc_local` sequences (hence also repeat no id); the `()` instance is not
monotonic, but it also never repeats an id, because after its single success
the flag is `false` and `inc_local false` fails. -/
theorem counter_monotonic_norepeat {Id : Type} (S : NumScalar Id)
    (hinj : ∀ a b : Int, S.incLocal a ≠ none → S.incLocal b ≠ none →
      S.conv a = S.conv b → a = b)
    (n : Nat) (vf : Int) (ids : List Id)
    (hrun : S.runN n S.init = some (vf, ids))
    (w s' : Int) (idw : Id) (hw : S.incLocal w = some (s', idw)) :
    ids.Nodup ∧ w < s' ∧
      S.runNAtomic n S.init = S.runN n S.init ∧
      Pui.unitIncLocal false = none := by
  obtain ⟨-, hids, hsteps⟩ := S.runN_eq n S.init vf ids hrun
  refine ⟨?_, ?_, S.runNAtomic_eq_runN n S.init, rfl⟩
  · rw [hids]
    refine List.Nodup.map_on ?_ (List.nodup_range n)
    intro x hx y hy hconv
    have hx' : x < n := List.mem_range.mp hx
    have hy' : y < n := List.mem_range.mp hy
    have := hinj (S.init + (x : Int)) (S.init + (y : Int))
      (hsteps x hx') (hsteps y hy') hconv
    omega
  · have hchar := S.incLocal_char w
    rw [hw] at hchar
    by_cases hex : S.exhaustedAt w
    · rw [if_pos hex] at hchar; exact absurd hchar (by simp)
    · rw [if_neg hex] at hchar
      have hc := hchar
      simp only [Option.some.injEq, Prod.mk.injEq] at hc
      omega

/-- Witness for the amended C2 at the `u8` scalar, three steps from
`INIT_LOCAL = 0` issuing ids `0, 1, 2`, and one call at `5` yielding state
`6`. -/
theorem counter_monotonic_norepeat_witness :
    ([(0 : Int), 1, 2] : List Int).Nodup ∧ (5 : Int) < 6 ∧
      Pui.u8Scalar.runNAtomic 3 Pui.u8Scalar.init =
        Pui.u8Scalar.runN 3 Pui.u8Scalar.init ∧
      Pui.unitIncLocal false = none :=
  counter_monotonic_norepeat u8Scalar
    (fun a b _ _ h => h) 3 3 [0, 1, 2] (by decide) 5 6 5 (by decide)

/-- A run succeeds whenever no step hits the exhaustion condition. -/
theorem NumScalar.runN_isSome {Id : Type} (S : NumScalar Id) (n : Nat) (v : Int)
    (h : ∀ k : Nat, k < n → S.exhaustedAt (v + (k : Int)) = false) :
    (S.runN n v).isSome := by
  induction n generalizing v with
  | zero => simp [NumScalar.runN]
  | succ n ih =>
    have h0 : S.exhaustedAt v = false := by
      have := h 0 (by omega); simpa using this
    have hstep : S.incLocal v = some (v + 1, S.conv v) := by
      rw [S.incLocal_char v, h0]; rfl
    unfold NumScalar.runN
    rw [hstep]
    have hrest : (S.runN n (v + 1)).isSome := by
      apply ih
      intro k hk
      have := h (k + 1) (by omega)
      have harg : v + ((k + 1 : Nat) : Int) = v + 1 + (k : Int) := by push_cast; ring
      rw [harg] at this
      exact this
    dsimp only
    rcases hr : S.runN n (v + 1) with _ | ⟨vf, ids⟩
    · rw [hr] at hrest; exact absurd hrest (by simp)
    · simp

/-- Injectivity of the `[u8; 3]` encoding below `2^24`: three little-endian
bytes determine the counter value. -/
theorem u8x3conv_inj (v w : Int) (hv0 : 0 ≤ v) (hv : v < 16777216)
    (hw0 : 0 ≤ w) (hw : w < 16777216) (h : u8x3conv v = u8x3conv w) : v = w := by
  unfold u8x3conv at h
  simp only [List.cons.injEq, and_true] at h
  omega

/-- C10: the `[u8; 3]` scalar (declared max `2^24`) rejects the successor
already when it reaches the max: from `INIT_LOCAL = 0`, runs of length
`n ≤ 2^24 - 1` succeed and issue exactly the byte encodings of the counter
values `0, …, n - 1`; the call at counter value `2^24 - 1` fails even though
the checked add would succeed, a run of length `2^24` is impossible, the
`2^24 - 1` issuable ids are pairwise distinct, and the encoding of the
maximal value `2^24 - 1` is never issued. -/
theorem u8x3_bounded_ids (n : Nat) (hn : n ≤ 16777215) :
    u8x3Scalar.runN n 0 =
      some ((n : Int), (List.range n).map (fun k : Nat => u8x3conv (k : Int))) ∧
    u8x3Scalar.incLocal 16777215 = none ∧
    u8x3Scalar.runN 16777216 0 = none ∧
    ((List.range 16777215).map (fun k : Nat => u8x3conv (k : Int))).Nodup ∧
    u8x3conv 16777215 ∉
      (List.range 16777215).map (fun k : Nat => u8x3conv (k : Int)) := by
  have hex : ∀ k : Nat, k < 16777215 →
      u8x3Scalar.exhaustedAt ((0 : Int) + (k : Int)) = false := by
    intro k hk
    simp only [NumScalar.exhaustedAt, u8x3Scalar, zero_add]
    have h1 : ¬((4294967295 : Int) < (k : Int) + 1) := by
      omega
    have h2 : ¬((16777216 : Int) ≤ (k : Int) + 1) := by
      omega
    simp [h1, h2]
  have hfail : u8x3Scalar.incLocal 16777215 = none := by
    rw [NumScalar.incLocal_char]
    have : u8x3Scalar.exhaustedAt 16777215 = true := by
      simp [NumScalar.exhaustedAt, u8x3Scalar]
    rw [this]; rfl
  refine ⟨?_, hfail, ?_, ?_, ?_⟩
  · have hs : (u8x3Scalar.runN n 0).isSome := by
      apply NumScalar.runN_isSome
      intro k hk
      exact hex k (by omega)
    rcases hr : u8x3Scalar.runN n 0 with _ | ⟨vf, ids⟩
    · rw [hr] at hs; exact absurd hs (by simp)
    · obtain ⟨hvf, hids, -⟩ := u8x3Scalar.runN_eq n 0 vf ids hr
      subst hvf
      subst hids
      simp [u8x3Scalar]
  · rcases hr : u8x3Scalar.runN 16777216 0 with _ | ⟨vf, ids⟩
    · rfl
    · exfalso
      obtain ⟨-, -, hsteps⟩ := u8x3Scalar.runN_eq 16777216 0 vf ids hr
      have := hsteps 16777215 (by omega)
      simp only [zero_add] at this
      exact this (by exact_mod_cast hfail)
  · refine List.Nodup.map_on ?_ (List.nodup_range _)
    intro x hx y hy hconv
    have hx' : x < 16777215 := List.mem_range.mp hx
    have hy' : y < 16777215 := List.mem_range.mp hy
    have := u8x3conv_inj (x : Int) (y : Int) (by omega) (by omega)
      (by omega) (by omega) hconv
    omega
  · intro hmem
    obtain ⟨k, hk, hkeq⟩ := List.mem_map.mp hmem
    have hk' : k < 16777215 := List.mem_range.mp hk
    have := u8x3conv_inj (k : Int) 16777215 (by omega) (by omega)
      (by omega) (by omega) hkeq
    omega

/-- Witness for C10 at `n = 3`. -/
theorem u8x3_bounded_ids_witness :
    Pui.u8x3Scalar.runN 3 0 =
      some ((3 : Int),
        (List.range 3).map (fun k : Nat => Pui.u8x3conv (k : Int))) ∧
    Pui.u8x3Scalar.incLocal 16777215 = none ∧
    Pui.u8x3Scalar.runN 16777216 0 = none ∧
    ((List.range 16777215).map (fun k : Nat => Pui.u8x3conv (k : Int))).Nodup ∧
    Pui.u8x3conv 16777215 ∉
      (List.range 16777215).map (fun k : Nat => Pui.u8x3conv (k : Int)) :=
  u8x3_bounded_ids 3 (by decide)

/-- A mutable id pool (`PoolMut<T>` of `src/runtime/pool.rs`) as state-passing
operations: `takeMut` yields the taken id (if any) and the updated pool;
`tryPutMut` yields `Ok ()` or `Err id` and the updated pool. Ids inside a
pool are the payloads of `RuntimeId` wrappers. -/
structure PoolM (σ : Type) where
  takeMut : σ → Option Int × σ
  tryPutMut : σ → Int → Except Int Unit × σ

/-- Source: `impl<T> PoolMut<T> for ()` (`src/runtime/pool.rs:33-43`): `try_put_mut`
returns `Err(value)` and `take_mut` returns `None`. -/
def unitPool : PoolM Unit where
  takeMut := fun _ => (none, ())
  tryPutMut := fun _ v => (Except.error v, ())

/-- Source: `impl<T> PoolMut<T> for Vec<RuntimeId<T>>` (`src/runtime/pool.rs:174-186`):
`try_put_mut` is `Vec::push` (append at the back, always `Ok`), `take_mut` is
`Vec::pop` (remove from the back). -/
def vecPool : PoolM (List Int) where
  takeMut := fun l => (l.getLast?, l.dropLast)
  tryPutMut := fun l v => (Except.ok (), l ++ [v])

/-- Source: `impl<T> PoolMut<T> for VecDeque<RuntimeId<T>>`
(`src/runtime/pool.rs:188-200`): `try_put_mut` is `push_back`, `take_mut` is
`pop_front`. -/
def dequePool : PoolM (List Int) where
  takeMut := fun l => (l.head?, l.tail)
  tryPutMut := fun l v => (Except.ok (), l ++ [v])

/-- The `stack` variant of `make_global_pool`
(`src/runtime/macros.rs:360-369`): `push` / `pop` on the mutex-guarded global
`Vec`, sequential semantics. -/
def globalStackPool : PoolM (List Int) where
  takeMut := fun l => (l.getLast?, l.dropLast)
  tryPutMut := fun l v => (Except.ok (), l ++ [v])

/-- The `queue` variant of `make_global_pool`
(`src/runtime/macros.rs:404-413`): `push_back` / `pop_front` on the
mutex-guarded global `VecDeque`, sequential semantics. -/
def globalQueuePool : PoolM (List Int) where
  takeMut := fun l => (l.head?, l.tail)
  tryPutMut := fun l v => (Except.ok (), l ++ [v])

/-- Source: `Runtime<I, P>` (`src/runtime.rs:120-123`): the held id and the pool it
will be returned to. -/
structure RuntimeP (σ : Type) where
  id : Int
  pool : σ

/-- Source: `impl PartialEq for Runtime` (`src/runtime.rs:222-224`): equality of
`Runtime` values is equality of their ids. -/
def runtimeEq {σ : Type} (a b : RuntimeP σ) : Bool := a.id == b.id

/-- Source: `Runtime::handle` (`src/runtime.rs:198`): `RuntimeHandle(self.id)`; the
handle is just the id. -/
def runtimeHandle {σ : Type} (r : RuntimeP σ) : Int := r.id

/-- Source: `Identifier::owns` for `Runtime` (`src/runtime.rs:213`): compare the
stored id with the handle's id. -/
def runtimeOwns {σ : Type} (r : RuntimeP σ) (h : Int) : Bool := r.id == h

/-- Source: `Identifier::owns` for `Scoped` (`src/scoped.rs:147`): always true; the
zero-sized identifier and handle are modelled as `Unit`, brand matching being
enforced by the host type system. -/
def scopedOwns (_ident _handle : Unit) : Bool := true

/-- Source: `Identifier::owns` for `Type` (`src/typeid.rs:75`): always true, as for
`Scoped`. -/
def typeOwns (_ident _handle : Unit) : Bool := true

/-- Source: `Runtime::try_with_id_alloc_and_pool` (`src/runtime.rs:187-194`), generic
over the allocator (`tn` is `IdAlloc::try_next`, returning the new allocator
state and the id) and the pool: first `pool.take_mut()`, and only on `None`
ask the allocator. -/
def tryWithIdAllocAndPool {α σ : Type} (tn : α → Option (α × Int)) (P : PoolM σ)
    (a : α) (p : σ) : Option (RuntimeP σ × α) :=
  match P.takeMut p with
  | (some id, p') => some (⟨id, p'⟩, a)
  | (none, p') =>
    match tn a with
    | none => none
    | some (a', id) => some (⟨id, p'⟩, a')

/-- Source: `impl Drop for Runtime` (`src/runtime.rs:216-219`):
`self.pool.try_put_mut(RuntimeId(self.id))`, result discarded. -/
def dropRuntime {σ : Type} (P : PoolM σ) (r : RuntimeP σ) : σ :=
  (P.tryPutMut r.pool r.id).2

/-- Source: `IdAlloc::try_next` of the `Global` allocator (`make_global_id_alloc`
over `NonZeroU64`, `src/runtime.rs:92-95` and `src/runtime/macros.rs:80-88`),
returning the new counter cell and the id. -/
def globalTryNext (cell : Int) : Option (Int × Int) :=
  tryAllocG nonZeroU64Scalar cell

/-- C4: dropping a `Runtime` hands exactly the id it held back to its pool:
`Drop` is `try_put_mut` of the held id on the stored pool, for every pool and
every `Runtime`; on the `Vec` and `VecDeque` pools the id is appended, and on
the unit pool the refused `Err` carries exactly the id. -/
theorem drop_returns_id_to_pool {σ : Type} (P : PoolM σ) (r : RuntimeP σ)
    (l : List Int) (v : Int) :
    dropRuntime P r = (P.tryPutMut r.pool r.id).2 ∧
    dropRuntime vecPool ⟨v, l⟩ = l ++ [v] ∧
    dropRuntime dequePool ⟨v, l⟩ = l ++ [v] ∧
    (unitPool.tryPutMut () v).1 = Except.error v :=
  ⟨rfl, rfl, rfl, rfl⟩

/-- Witness for C4 on the unit pool and concrete ids. -/
theorem drop_returns_id_to_pool_witness :
    Pui.dropRuntime Pui.unitPool ⟨7, ()⟩ = ((Pui.unitPool.tryPutMut () 7).2) ∧
    Pui.dropRuntime Pui.vecPool ⟨2, [1]⟩ = [1] ++ [2] ∧
    Pui.dropRuntime Pui.dequePool ⟨2, [1]⟩ = [1] ++ [2] ∧
    (Pui.unitPool.tryPutMut () 2).1 = Except.error 2 := by
  have h := drop_returns_id_to_pool unitPool (⟨7, ()⟩ : RuntimeP Unit) [1] 2
  exact ⟨h.1, h.2.1, h.2.2.1, h.2.2.2⟩

/-- C5: creation checks the pool first and leaves the allocator untouched
when the pool yields an id: if `take_mut` returns `Some(id)` the new
`Runtime` carries that recycled id and the allocator state is returned
unchanged; only when `take_mut` returns `None` is the allocator consulted,
and then the `Runtime` carries the freshly allocated id. -/
theorem create_checks_pool_first {α σ : Type} (tn : α → Option (α × Int))
    (P : PoolM σ) (a a' : α) (p₁ p₂ p₁' p₂' : σ) (id fid : Int)
    (h1 : P.takeMut p₁ = (some id, p₁'))
    (h2 : P.takeMut p₂ = (none, p₂'))
    (h3 : tn a = some (a', fid)) :
    tryWithIdAllocAndPool tn P a p₁ = some (⟨id, p₁'⟩, a) ∧
    tryWithIdAllocAndPool tn P a p₂ = some (⟨fid, p₂'⟩, a') := by
  unfold tryWithIdAllocAndPool
  rw [h1, h2, h3]
  exact ⟨rfl, rfl⟩

/-- Witness for C5: a `Vec` pool holding `7` yields the recycled id `7` with
the `Global` counter cell still at `1`; the empty pool falls through to the
allocator, which issues `1` and advances the cell to `2`. -/
theorem create_checks_pool_first_witness :
    Pui.tryWithIdAllocAndPool Pui.globalTryNext Pui.vecPool 1 [7] =
      some (⟨7, []⟩, 1) ∧
    Pui.tryWithIdAllocAndPool Pui.globalTryNext Pui.vecPool 1 [] =
      some (⟨1, []⟩, 2) :=
  create_checks_pool_first globalTryNext vecPool 1 2 [7] [] [] [] 7 1
    (by decide) (by decide) (by decide)

/-- C9: the unit pool `()` refuses every id losslessly: `try_put_mut` returns
`Err` carrying exactly the id it was given and `take_mut` is always `None`;
consequently a `Runtime` built over the unit pool (as by `Runtime::new`)
always carries a freshly allocated id (never a recycled one) and its drop
silently discards the id. -/
theorem unit_pool_refuses_ids (v a a' b fid : Int) (r : RuntimeP Unit)
    (h : globalTryNext a = some (a', fid))
    (hb : globalTryNext b = none) :
    unitPool.tryPutMut () v = (Except.error v, ()) ∧
    unitPool.takeMut () = (none, ()) ∧
    tryWithIdAllocAndPool globalTryNext unitPool a () = some (⟨fid, ()⟩, a') ∧
    tryWithIdAllocAndPool globalTryNext unitPool b () = none ∧
    dropRuntime unitPool r = () := by
  refine ⟨rfl, rfl, ?_, ?_, rfl⟩
  · unfold tryWithIdAllocAndPool
    rw [show unitPool.takeMut () = (none, ()) from rfl, h]
  · unfold tryWithIdAllocAndPool
    rw [show unitPool.takeMut () = (none, ()) from rfl, hb]

/-- Witness for C9: id `9`, a live counter cell at `1`, and the exhausted
cell at `u64::MAX`. -/
theorem unit_pool_refuses_ids_witness :
    Pui.unitPool.tryPutMut () 9 = (Except.error 9, ()) ∧
    Pui.unitPool.takeMut () = (none, ()) ∧
    Pui.tryWithIdAllocAndPool Pui.globalTryNext Pui.unitPool 1 () =
      some (⟨1, ()⟩, 2) ∧
    Pui.tryWithIdAllocAndPool Pui.globalTryNext Pui.unitPool
      18446744073709551615 () = none ∧
    Pui.dropRuntime Pui.unitPool ⟨5, ()⟩ = () :=
  unit_pool_refuses_ids 9 1 2 18446744073709551615 1 ⟨5, ()⟩
    (by decide) (by decide)

/-- C6: an identifier owns the handle it issues: for `Runtime`, `owns`
compares the stored id with the handle's id, so `r.owns(r.handle())` holds;
equal handles receive the same verdict; and the `Scoped` and `Type` flavours
return `true` for every handle of the matching brand. -/
theorem identifier_owns_its_handle {σ : Type} (r : RuntimeP σ) (h₁ h₂ : Int)
    (heq : h₁ = h₂) (s₁ s₂ t₁ t₂ : Unit) :
    runtimeOwns r (runtimeHandle r) = true ∧
    runtimeOwns r h₁ = (r.id == h₁) ∧
    runtimeOwns r h₁ = runtimeOwns r h₂ ∧
    scopedOwns s₁ s₂ = true ∧
    typeOwns t₁ t₂ = true := by
  refine ⟨?_, rfl, by rw [heq], rfl, rfl⟩
  simp [runtimeOwns, runtimeHandle]

/-- Witness for C6 at a concrete runtime with id `4`. -/
theorem identifier_owns_its_handle_witness :
    Pui.runtimeOwns (⟨4, ()⟩ : Pui.RuntimeP Unit)
      (Pui.runtimeHandle ⟨4, ()⟩) = true ∧
    Pui.runtimeOwns (⟨4, ()⟩ : Pui.RuntimeP Unit) 4 =
      ((⟨4, ()⟩ : Pui.RuntimeP Unit).id == 4) ∧
    Pui.runtimeOwns (⟨4, ()⟩ : Pui.RuntimeP Unit) 4 =
      Pui.runtimeOwns (⟨4, ()⟩ : Pui.RuntimeP Unit) 4 ∧
    Pui.scopedOwns () () = true ∧
    Pui.typeOwns () () = true :=
  identifier_owns_its_handle (⟨4, ()⟩ : RuntimeP Unit) 4 4 rfl () () () ()

/-- Repeatedly `take_mut` from a `Vec`-backed pool until empty (with a fuel
argument bounding the number of takes). -/
def drainVecAux : Nat → List Int → List Int
  | 0, _ => []
  | n + 1, l =>
    match vecPool.takeMut l with
    | (none, _) => []
    | (some v, l') => v :: drainVecAux n l'

/-- Drain a `Vec`-backed pool completely. -/
def drainVec (l : List Int) : List Int := drainVecAux l.length l

/-- Repeatedly `take_mut` from a `VecDeque`-backed pool until empty. -/
def drainDequeAux : Nat → List Int → List Int
  | 0, _ => []
  | n + 1, l =>
    match dequePool.takeMut l with
    | (none, _) => []
    | (some v, l') => v :: drainDequeAux n l'

/-- Drain a `VecDeque`-backed pool completely. -/
def drainDeque (l : List Int) : List Int := drainDequeAux l.length l

/-- Put the ids of `l`, in order, into an initially empty `Vec` pool. -/
def putAllVec (l : List Int) : List Int :=
  l.foldl (fun s v => (vecPool.tryPutMut s v).2) []

/-- Put the ids of `l`, in order, into an initially empty `VecDeque` pool. -/
def putAllDeque (l : List Int) : List Int :=
  l.foldl (fun s v => (dequePool.tryPutMut s v).2) []

theorem foldl_append_singleton (l : List Int) :
    ∀ init : List Int, l.foldl (fun s v => s ++ [v]) init = init ++ l := by
  induction l with
  | nil => intro init; simp
  | cons a l ih => intro init; simp [List.foldl_cons, ih]

theorem putAllVec_eq (l : List Int) : putAllVec l = l := by
  have h : putAllVec l = l.foldl (fun s v => s ++ [v]) [] := rfl
  rw [h, foldl_append_singleton l []]
  simp

theorem putAllDeque_eq (l : List Int) : putAllDeque l = l := by
  have h : putAllDeque l = l.foldl (fun s v => s ++ [v]) [] := rfl
  rw [h, foldl_append_singleton l []]
  simp

theorem drainVecAux_eq (n : Nat) : ∀ l : List Int, l.length ≤ n →
    drainVecAux n l = l.reverse := by
  induction n with
  | zero =>
    intro l hl
    have : l = [] := List.eq_nil_of_length_eq_zero (by omega)
    subst this; rfl
  | succ n ih =>
    intro l hl
    rcases List.eq_nil_or_concat l with rfl | ⟨L, b, rfl⟩
    · rfl
    · rw [List.concat_eq_append] at hl ⊢
      have htake : vecPool.takeMut (L ++ [b]) = (some b, L) := by
        simp [vecPool]
      unfold drainVecAux
      rw [htake]
      dsimp only
      have hlen : L.length ≤ n := by
        simp only [List.length_append, List.length_cons, List.length_nil] at hl
        omega
      rw [ih L hlen]
      simp

theorem drainVec_eq (l : List Int) : drainVec l = l.reverse :=
  drainVecAux_eq l.length l (le_refl _)

theorem drainDequeAux_eq (n : Nat) : ∀ l : List Int, l.length ≤ n →
    drainDequeAux n l = l := by
  induction n with
  | zero =>
    intro l hl
    have : l = [] := List.eq_nil_of_length_eq_zero (by omega)
    subst this; rfl
  | succ n ih =>
    intro l hl
    cases l with
    | nil => rfl
    | cons x xs =>
      have htake : dequePool.takeMut (x :: xs) = (some x, xs) := rfl
      unfold drainDequeAux
      rw [htake]
      dsimp only
      have hlen : xs.length ≤ n := by
        simp only [List.length_cons] at hl; omega
      rw [ih xs hlen]

theorem drainDeque_eq (l : List Int) : drainDeque l = l :=
  drainDequeAux_eq l.length l (le_refl _)

/-- C7: the `Vec`-backed pools are stacks (LIFO) and the `VecDeque`-backed
pools are queues (FIFO): after a put, the `Vec` pool's take yields the id
just put (restoring the previous state), while the `VecDeque` pool's take
yields the earliest id still pooled; draining after any sequence of puts
returns the put ids in reverse order (`Vec`) respectively in order
(`VecDeque`); and the `make_global_pool` stack and queue variants perform
the same operations as the `Vec` and `VecDeque` pools. -/
theorem pool_stack_queue_order (s l : List Int) (v x : Int) (xs : List Int) :
    vecPool.takeMut (vecPool.tryPutMut s v).2 = (some v, s) ∧
    dequePool.takeMut (dequePool.tryPutMut [] v).2 = (some v, []) ∧
    dequePool.takeMut (dequePool.tryPutMut (x :: xs) v).2 = (some x, xs ++ [v]) ∧
    drainVec (putAllVec l) = l.reverse ∧
    drainDeque (putAllDeque l) = l ∧
    globalStackPool = vecPool ∧
    globalQueuePool = dequePool := by
  refine ⟨?_, rfl, rfl, ?_, ?_, rfl, rfl⟩
  · simp [vecPool]
  · rw [putAllVec_eq, drainVec_eq]
  · rw [putAllDeque_eq, drainDeque_eq]

/-- Witness for C7 at concrete pools. -/
theorem pool_stack_queue_order_witness :
    Pui.vecPool.takeMut (Pui.vecPool.tryPutMut [8] 9).2 = (some 9, [8]) ∧
    Pui.dequePool.takeMut (Pui.dequePool.tryPutMut [] 9).2 = (some 9, []) ∧
    Pui.dequePool.takeMut (Pui.dequePool.tryPutMut [8] 9).2 = (some 8, [] ++ [9]) ∧
    Pui.drainVec (Pui.putAllVec [1, 2, 3]) = ([1, 2, 3] : List Int).reverse ∧
    Pui.drainDeque (Pui.putAllDeque [1, 2, 3]) = [1, 2, 3] ∧
    Pui.globalStackPool = Pui.vecPool ∧
    Pui.globalQueuePool = Pui.dequePool :=
  pool_stack_queue_order [8] [1, 2, 3] 9 8 []

/-- Operations on a `ResettableOnceFlag`: a `try_acquire` attempt or a
`release`. -/
inductive FlagOp
  | tryAcq
  | rel
deriving DecidableEq

/-- The `std` variant of `ResettableOnceFlag` (`src/macros.rs:66-125`): the
state is the `locked` atomic, initially `false` (free). `try_acquire` is
`!locked.swap(true)`: it returns whether the flag was free, and leaves the
flag locked. Sequential semantics of the single atomic. -/
def stdTryAcquire (s : Bool) : Bool × Bool := (!s, true)

/-- Source: `release` of the `std` variant (`src/macros.rs:120-124`):
`locked.store(false)` (plus a condvar notification with no state of its
own). -/
def stdRelease (_s : Bool) : Bool := false

/-- The blocking `acquire` of the `std` variant (`src/macros.rs:100-114`)
under sequential semantics: the call returns (with `true`) only when the flag
is free; while the flag is held the wait loop does not terminate, modelled as
`none`. -/
def stdAcquireRet (s : Bool) : Option Bool :=
  if s then none else some true

/-- The `atomic`-only variant of `ResettableOnceFlag`
(`src/macros.rs:126-145`): the state is the `AtomicBool`, initially `true`
(available). `acquire` (and `try_acquire`, which just calls it) is
`compare_and_swap(true, false)`: it returns the old value and leaves the flag
`false`. -/
def atomAcquire (s : Bool) : Bool × Bool := (s, false)

/-- Source: `try_acquire` of the atomic variant (`src/macros.rs:138-140`): calls
`acquire`. -/
def atomTryAcquire (s : Bool) : Bool × Bool := atomAcquire s

/-- Source: `release` of the atomic variant (`src/macros.rs:142-144`):
`store(true)`. -/
def atomRelease (_s : Bool) : Bool := true

/-- Run a sequence of flag operations on the `std` variant, collecting the
result of every `try_acquire`. -/
def runStd : Bool → List FlagOp → Bool × List Bool
  | s, [] => (s, [])
  | s, FlagOp.tryAcq :: ops =>
    let r := stdTryAcquire s
    let rest := runStd r.2 ops
    (rest.1, r.1 :: rest.2)
  | s, FlagOp.rel :: ops => runStd (stdRelease s) ops

/-- Run a sequence of flag operations on the atomic variant. -/
def runAtom : Bool → List FlagOp → Bool × List Bool
  | s, [] => (s, [])
  | s, FlagOp.tryAcq :: ops =>
    let r := atomTryAcquire s
    let rest := runAtom r.2 ops
    (rest.1, r.1 :: rest.2)
  | s, FlagOp.rel :: ops => runAtom (atomRelease s) ops

theorem runStd_held (ops : List FlagOp) (h : FlagOp.rel ∉ ops) :
    (runStd true ops).1 = true ∧ (runStd true ops).2.all (fun b => !b) = true := by
  induction ops with
  | nil => exact ⟨rfl, rfl⟩
  | cons op ops ih =>
    cases op with
    | tryAcq =>
      have hops : FlagOp.rel ∉ ops := fun hc => h (List.mem_cons_of_mem _ hc)
      obtain ⟨h1, h2⟩ := ih hops
      unfold runStd
      dsimp only [stdTryAcquire]
      exact ⟨h1, by simp [h2]⟩
    | rel => exact absurd (List.mem_cons_self _ _) h

theorem runAtom_held (ops : List FlagOp) (h : FlagOp.rel ∉ ops) :
    (runAtom false ops).1 = false ∧
      (runAtom false ops).2.all (fun b => !b) = true := by
  induction ops with
  | nil => exact ⟨rfl, rfl⟩
  | cons op ops ih =>
    cases op with
    | tryAcq =>
      have hops : FlagOp.rel ∉ ops := fun hc => h (List.mem_cons_of_mem _ hc)
      obtain ⟨h1, h2⟩ := ih hops
      unfold runAtom
      dsimp only [atomTryAcquire, atomAcquire]
      exact ⟨h1, by simp [h2]⟩
    | rel => exact absurd (List.mem_cons_self _ _) h

/-- C8: the resettable park/unpark flag grants exclusive holds, in both
variants. From the initial state a `try_acquire` succeeds and leaves the flag
held; from the held state, every `try_acquire` in any release-free operation
sequence returns `false` and the flag stays held (and the blocking `acquire`
of the `std` variant does not return while the flag is held); after a
`release` the next `try_acquire` succeeds again. -/
theorem flag_exclusive_holds (ops : List FlagOp) (h : FlagOp.rel ∉ ops)
    (s : Bool) :
    (stdTryAcquire false).1 = true ∧ (stdTryAcquire false).2 = true ∧
    (runStd true ops).1 = true ∧
    (runStd true ops).2.all (fun b => !b) = true ∧
    stdAcquireRet true = none ∧ stdAcquireRet false = some true ∧
    (stdTryAcquire (stdRelease s)).1 = true ∧
    (atomTryAcquire true).1 = true ∧ (atomTryAcquire true).2 = false ∧
    (runAtom false ops).1 = false ∧
    (runAtom false ops).2.all (fun b => !b) = true ∧
    (atomTryAcquire (atomRelease s)).1 = true := by
  obtain ⟨hs1, hs2⟩ := runStd_held ops h
  obtain ⟨ha1, ha2⟩ := runAtom_held ops h
  exact ⟨rfl, rfl, hs1, hs2, rfl, rfl, rfl, rfl, rfl, ha1, ha2, rfl⟩

/-- Witness for C8 on the release-free sequence of two `try_acquire`
attempts. -/
theorem flag_exclusive_holds_witness :
    (Pui.stdTryAcquire false).1 = true ∧ (Pui.stdTryAcquire false).2 = true ∧
    (Pui.runStd true [Pui.FlagOp.tryAcq, Pui.FlagOp.tryAcq]).1 = true ∧
    (Pui.runStd true [Pui.FlagOp.tryAcq, Pui.FlagOp.tryAcq]).2.all
      (fun b => !b) = true ∧
    Pui.stdAcquireRet true = none ∧ Pui.stdAcquireRet false = some true ∧
    (Pui.stdTryAcquire (Pui.stdRelease false)).1 = true ∧
    (Pui.atomTryAcquire true).1 = true ∧ (Pui.atomTryAcquire true).2 = false ∧
    (Pui.runAtom false [Pui.FlagOp.tryAcq, Pui.FlagOp.tryAcq]).1 = false ∧
    (Pui.runAtom false [Pui.FlagOp.tryAcq, Pui.FlagOp.tryAcq]).2.all
      (fun b => !b) = true ∧
    (Pui.atomTryAcquire (Pui.atomRelease false)).1 = true :=
  flag_exclusive_holds [FlagOp.tryAcq, FlagOp.tryAcq] (by decide) false

/-- State of the create/drop system over the `Global` allocator
(`NonZeroU64`-backed) and a shared `Vec` pool: the allocator's counter cell,
the pool contents, and the ids held by the live `Runtime` values. -/
structure SysState where
  cell : Int
  pool : List Int
  live : List Int
deriving DecidableEq

/-- Creation of a `Runtime` (`Runtime::try_with_id_alloc_and_pool`,
`src/runtime.rs:187-194`) with the shared pool and the `Global` allocator:
the pool is consulted first, and only if it is empty is a fresh id
allocated. -/
def sysTryCreate (s : SysState) : Option SysState :=
  match vecPool.takeMut s.pool with
  | (some id, p') => some ⟨s.cell, p', s.live ++ [id]⟩
  | (none, p') =>
    match globalTryNext s.cell with
    | none => none
    | some (c', id) => some ⟨c', p', s.live ++ [id]⟩

/-- Dropping the `i`-th live `Runtime` (`impl Drop for Runtime`,
`src/runtime.rs:216-219`): its id is `try_put_mut` into the shared pool. -/
def sysDrop (s : SysState) (i : Nat) (h : i < s.live.length) : SysState :=
  ⟨s.cell, (vecPool.tryPutMut s.pool s.live[i]).2, s.live.eraseIdx i⟩

/-- Reachable states of the create/drop system, starting from the fresh
`Global` counter (`INIT_ATOMIC = 1`) with an empty pool and no live
identifiers. -/
inductive SysReach : SysState → Prop
  | init : SysReach ⟨1, [], []⟩
  | create {s s' : SysState} : SysReach s → sysTryCreate s = some s' → SysReach s'
  | drop {s : SysState} {i : Nat} (hs : SysReach s) (h : i < s.live.length) :
      SysReach (sysDrop s i h)

/-- System invariant: the live and pooled ids together are pairwise distinct,
and every one of them lies strictly below the counter cell (and at least at
the initial value `1`). -/
def SysInv (s : SysState) : Prop :=
  (s.live ++ s.pool).Nodup ∧
    (∀ v ∈ s.live ++ s.pool, 1 ≤ v ∧ v < s.cell) ∧ 1 ≤ s.cell

theorem cons_eraseIdx_perm (l : List Int) (i : Nat) (h : i < l.length) :
    List.Perm l (l[i] :: l.eraseIdx i) :=
  (List.perm_cons_erase (List.getElem_mem h)).trans
    (List.Perm.cons _ (List.erase_getElem h))

theorem sysReach_inv {s : SysState} (h : SysReach s) : SysInv s := by
  induction h with
  | init =>
    refine ⟨List.nodup_nil, ?_, le_refl 1⟩
    intro v hv
    simp at hv
  | @create s s' hreach hcreate ih =>
    unfold sysTryCreate at hcreate
    obtain ⟨hnd, hbd, hcell⟩ := ih
    rcases List.eq_nil_or_concat s.pool with hp | ⟨L, b, hp⟩
    · rw [hp] at hcreate
      have ht : vecPool.takeMut [] = ((none : Option Int), ([] : List Int)) := rfl
      rw [ht] at hcreate
      dsimp only at hcreate
      rcases hg : globalTryNext s.cell with _ | ⟨c', id⟩
      · rw [hg] at hcreate; exact absurd hcreate (by simp)
      · rw [hg] at hcreate
        dsimp only at hcreate
        simp only [Option.some.injEq] at hcreate
        subst hcreate
        have hg' : nonZeroU64Scalar.incLocal s.cell = some (c', id) := hg
        rw [NumScalar.incLocal_char] at hg'
        by_cases hex : nonZeroU64Scalar.exhaustedAt s.cell
        · rw [if_pos hex] at hg'; exact absurd hg' (by simp)
        · rw [if_neg hex] at hg'
          simp only [Option.some.injEq, Prod.mk.injEq] at hg'
          obtain ⟨rfl, rfl⟩ := hg'
          rw [hp] at hnd hbd
          simp only [List.append_nil] at hnd hbd
          have hnotin : s.cell ∉ s.live := by
            intro hc
            have := hbd s.cell hc
            omega
          unfold SysInv
          dsimp only
          have hid : nonZeroU64Scalar.conv s.cell = s.cell := rfl
          rw [hid]
          refine ⟨?_, ?_, by omega⟩
          · simp only [List.append_nil]
            rw [List.nodup_append]
            refine ⟨hnd, by simp, ?_⟩
            intro a ha hb
            simp only [List.mem_singleton] at hb
            subst hb
            exact hnotin ha
          · intro v hv
            simp only [List.append_nil, List.mem_append,
              List.mem_singleton] at hv
            rcases hv with hv | rfl
            · have := hbd v hv; omega
            · omega
    · rw [List.concat_eq_append] at hp
      rw [hp] at hcreate
      have ht : vecPool.takeMut (L ++ [b]) = (some b, L) := by simp [vecPool]
      rw [ht] at hcreate
      dsimp only at hcreate
      simp only [Option.some.injEq] at hcreate
      subst hcreate
      rw [hp] at hnd hbd
      have hperm : List.Perm (s.live ++ [b] ++ L) (s.live ++ (L ++ [b])) := by
        rw [List.append_assoc]
        exact List.Perm.append_left s.live List.perm_append_comm
      refine ⟨hperm.nodup_iff.mpr hnd, ?_, hcell⟩
      intro v hv
      exact hbd v (hperm.subset hv)
  | @drop s i hreach hlt ih =>
    obtain ⟨hnd, hbd, hcell⟩ := ih
    show SysInv ⟨s.cell, s.pool ++ [s.live[i]], s.live.eraseIdx i⟩
    have hperm :
        List.Perm (s.live.eraseIdx i ++ (s.pool ++ [s.live[i]]))
          (s.live ++ s.pool) := by
      refine List.Perm.trans
        (List.Perm.append_left (s.live.eraseIdx i) List.perm_append_comm) ?_
      have hmid :
          List.Perm (s.live.eraseIdx i ++ (s.live[i] :: s.pool))
            (s.live[i] :: (s.live.eraseIdx i ++ s.pool)) := List.perm_middle
      refine hmid.trans ?_
      exact (cons_eraseIdx_perm s.live i hlt).symm.append_right s.pool
    refine ⟨hperm.nodup_iff.mpr hnd, ?_, hcell⟩
    intro v hv
    exact hbd v (hperm.subset hv)

/-- C1: in every reachable state of the create/drop system, the live
`Runtime` ids are pairwise distinct, and since `PartialEq` on `Runtime` is
exactly equality of the underlying ids, two simultaneously live `Runtime`
identifiers over the same allocator and pool never compare equal. -/
theorem live_runtimes_never_equal (s : SysState) (hs : SysReach s)
    (i j : Nat) (hi : i < s.live.length) (hj : j < s.live.length)
    (hij : i ≠ j) (a b : RuntimeP Unit) :
    (runtimeEq a b = true ↔ a.id = b.id) ∧
    s.live.Nodup ∧
    runtimeEq ⟨s.live[i], ()⟩ ⟨s.live[j], ()⟩ = false := by
  have hinv := sysReach_inv hs
  have hlive : s.live.Nodup := hinv.1.of_append_left
  refine ⟨by simp [runtimeEq], hlive, ?_⟩
  have hne : s.live[i] ≠ s.live[j] := by
    intro hc
    exact hij ((hlive.getElem_inj_iff).mp hc)
  simp [runtimeEq, hne]

/-- Witness for C1: the state reached by two creations from the initial
state has live ids `1` and `2`, whose runtimes compare unequal. -/
theorem live_runtimes_never_equal_witness :
    (runtimeEq (⟨5, ()⟩ : Pui.RuntimeP Unit) ⟨5, ()⟩ = true ↔
      (5 : Int) = 5) ∧
    ([(1 : Int), 2]).Nodup ∧
    Pui.runtimeEq ⟨([(1 : Int), 2])[0], ()⟩ ⟨([(1 : Int), 2])[1], ()⟩ = false :=
  live_runtimes_never_equal ⟨3, [], [1, 2]⟩
    (SysReach.create
      (SysReach.create SysReach.init
        (show sysTryCreate ⟨1, [], []⟩ = some ⟨2, [], [1]⟩ by decide))
      (show sysTryCreate ⟨2, [], [1]⟩ = some ⟨3, [], [1, 2]⟩ by decide))
    0 1 (by decide) (by decide) (by decide) ⟨5, ()⟩ ⟨5, ()⟩
